import Mathlib

/-!
# Verification of the gqg envelope codec

A shallow embedding of `src/lib.rs` of the gqg library: the `encode` and
`decode` entry points of the envelope codec, together with interface models
of the external crates they call (`base64`, `lz4_compress` and the
`sodiumoxide` crypto box).  Rust strings are embedded as `List Char`, byte
buffers as `List Nat` whose entries are below 256.
-/

namespace Gqg

/-- The Unicode White_Space property, the predicate used by Rust's
`char::is_whitespace`, which `remove_whitespace` (src/lib.rs lines 99-101)
applies through `String::retain`. -/
def isUnicodeWhitespace (c : Char) : Bool :=
  let n := c.toNat
  (0x09 ≤ n && n ≤ 0x0D) || n == 0x20 || n == 0x85 || n == 0xA0 || n == 0x1680 ||
  (0x2000 ≤ n && n ≤ 0x200A) || n == 0x2028 || n == 0x2029 || n == 0x202F ||
  n == 0x205F || n == 0x3000

/-- src/lib.rs lines 99-101: `s.retain(|c| !c.is_whitespace())`. -/
def remove_whitespace (s : List Char) : List Char :=
  s.filter (fun c => !isUnicodeWhitespace c)

/-- src/lib.rs line 14: the char sequence of `"[GQG1-MESSAGE"`. -/
def HEADER_MESSAGE : List Char :=
  ['[', 'G', 'Q', 'G', '1', '-', 'M', 'E', 'S', 'S', 'A', 'G', 'E']

/-- src/lib.rs line 15: the char sequence of `"[GQG1-FILE"`. -/
def HEADER_FILE : List Char :=
  ['[', 'G', 'Q', 'G', '1', '-', 'F', 'I', 'L', 'E']

/-- src/lib.rs line 16: the char sequence of `"]"`. -/
def FOOTER : List Char := [']']

/-- The standard base64 alphabet (RFC 4648), an interface model of the
external `base64` crate used at src/lib.rs lines 94 and 145. -/
def b64Alphabet : List Char :=
  ['A', 'B', 'C', 'D', 'E', 'F', 'G', 'H', 'I', 'J', 'K', 'L', 'M',
   'N', 'O', 'P', 'Q', 'R', 'S', 'T', 'U', 'V', 'W', 'X', 'Y', 'Z',
   'a', 'b', 'c', 'd', 'e', 'f', 'g', 'h', 'i', 'j', 'k', 'l', 'm',
   'n', 'o', 'p', 'q', 'r', 's', 't', 'u', 'v', 'w', 'x', 'y', 'z',
   '0', '1', '2', '3', '4', '5', '6', '7', '8', '9', '+', '/']

/-- The alphabet character of a 6-bit value. -/
def b64Char (n : Nat) : Char := b64Alphabet.getD n 'A'

/-- The 6-bit value of an alphabet character, `none` off the alphabet. -/
def b64Val (c : Char) : Option Nat :=
  if b64Alphabet.indexOf c < 64 then some (b64Alphabet.indexOf c) else none

/-- Interface model of `base64::encode` (standard alphabet, padded):
three input bytes become four alphabet characters, a short final group is
padded with `=`. -/
def base64encodeChars : List Nat → List Char
  | [] => []
  | [a] => [b64Char (a / 4), b64Char (a % 4 * 16), '=', '=']
  | [a, b] => [b64Char (a / 4), b64Char (a % 4 * 16 + b / 16), b64Char (b % 16 * 4), '=']
  | a :: b :: c :: rest =>
      b64Char (a / 4) :: b64Char (a % 4 * 16 + b / 16) ::
      b64Char (b % 16 * 4 + c / 64) :: b64Char (c % 64) :: base64encodeChars rest

/-- Interface model of `base64::decode` (standard alphabet, padded):
groups of four characters, the final group may carry one or two `=` pads;
any other shape, or a character off the alphabet, is rejected. -/
def base64decodeChars : List Char → Option (List Nat)
  | [] => some []
  | c1 :: c2 :: c3 :: c4 :: rest =>
      match b64Val c1, b64Val c2 with
      | some v1, some v2 =>
        if c3 = '=' then
          if c4 = '=' ∧ rest = [] then some [v1 * 4 + v2 / 16] else none
        else
          match b64Val c3 with
          | some v3 =>
            if c4 = '=' then
              if rest = [] then some [v1 * 4 + v2 / 16, v2 % 16 * 16 + v3 / 4] else none
            else
              match b64Val c4 with
              | some v4 =>
                match base64decodeChars rest with
                | some bs =>
                    some ((v1 * 4 + v2 / 16) :: (v2 % 16 * 16 + v3 / 4) :: (v3 % 4 * 64 + v4) :: bs)
                | none => none
              | none => none
          | none => none
      | _, _ => none
  | _ => none

theorem b64Val_b64Char : ∀ n : Nat, n < 64 → b64Val (b64Char n) = some n := by decide

theorem b64Char_ne_pad : ∀ n : Nat, n < 64 → b64Char n ≠ '=' := by decide

theorem base64_round_trip :
    ∀ bs : List Nat, (∀ b ∈ bs, b < 256) →
      base64decodeChars (base64encodeChars bs) = some bs
  | [], _ => rfl
  | [a], h => by
      have ha : a < 256 := h a (by simp)
      have h1 : b64Val (b64Char (a / 4)) = some (a / 4) := b64Val_b64Char _ (by omega)
      have h2 : b64Val (b64Char (a % 4 * 16)) = some (a % 4 * 16) := b64Val_b64Char _ (by omega)
      simp [base64encodeChars, base64decodeChars, h1, h2]
      omega
  | [a, b], h => by
      have ha : a < 256 := h a (by simp)
      have hb : b < 256 := h b (by simp)
      have h1 : b64Val (b64Char (a / 4)) = some (a / 4) := b64Val_b64Char _ (by omega)
      have h2 : b64Val (b64Char (a % 4 * 16 + b / 16)) = some (a % 4 * 16 + b / 16) :=
        b64Val_b64Char _ (by omega)
      have h3 : b64Val (b64Char (b % 16 * 4)) = some (b % 16 * 4) := b64Val_b64Char _ (by omega)
      have hne : b64Char (b % 16 * 4) ≠ '=' := b64Char_ne_pad _ (by omega)
      simp [base64encodeChars, base64decodeChars, h1, h2, h3, hne]
      omega
  | a :: b :: c :: rest, h => by
      have ha : a < 256 := h a (by simp)
      have hb : b < 256 := h b (by simp)
      have hc : c < 256 := h c (by simp)
      have ih := base64_round_trip rest (fun x hx => h x (by simp [hx]))
      have h1 : b64Val (b64Char (a / 4)) = some (a / 4) := b64Val_b64Char _ (by omega)
      have h2 : b64Val (b64Char (a % 4 * 16 + b / 16)) = some (a % 4 * 16 + b / 16) :=
        b64Val_b64Char _ (by omega)
      have h3 : b64Val (b64Char (b % 16 * 4 + c / 64)) = some (b % 16 * 4 + c / 64) :=
        b64Val_b64Char _ (by omega)
      have h4 : b64Val (b64Char (c % 64)) = some (c % 64) := b64Val_b64Char _ (by omega)
      have hne3 : b64Char (b % 16 * 4 + c / 64) ≠ '=' := b64Char_ne_pad _ (by omega)
      have hne4 : b64Char (c % 64) ≠ '=' := b64Char_ne_pad _ (by omega)
      simp [base64encodeChars, base64decodeChars, h1, h2, h3, h4, hne3, hne4, ih]
      omega

/-- Interface model of `lz4_compress::compress` (src/lib.rs line 76): an
injective framing of the input that `decompress` inverts — a four-byte
little-endian length then the raw bytes.  Only the interface contract of
the external crate (lossless round trip, clean failure on malformed
streams) matters to the codec. -/
def compress (data : List Nat) : List Nat :=
  [data.length % 256, data.length / 256 % 256, data.length / 65536 % 256,
   data.length / 16777216 % 256] ++ data

/-- Interface model of `lz4_compress::decompress` (src/lib.rs line 177):
inverts `compress`, returning `none` on any malformed stream. -/
def decompress : List Nat → Option (List Nat)
  | a :: b :: e :: f :: rest =>
      if rest.length = a + 256 * b + 65536 * e + 16777216 * f then some rest else none
  | _ => none

theorem decompress_compress (data : List Nat) (h : data.length < 4294967296) :
    decompress (compress data) = some data := by
  simp only [compress, decompress, List.cons_append, List.nil_append]
  rw [if_pos (by omega)]

/-- Interface model of `SecretKey::public_key` of sodiumoxide
(src/lib.rs line 81): the public key is a fixed byte-wise function of the
secret key, length-preserving and with every output byte below 256. -/
def public_key (sk : List Nat) : List Nat := sk.map (fun b => (b + 113) % 256)

/-- The Diffie-Hellman style shared key of the model crypto box: combining
one side's public key with the other side's secret key, symmetric in the
sense of `sharedKey_comm`. -/
def sharedKey (pk sk : List Nat) : List Nat :=
  List.zipWith (fun p s => (p + (s + 113) % 256) % 256) pk sk

theorem sharedKey_comm :
    ∀ a b : List Nat, sharedKey (public_key a) b = sharedKey (public_key b) a
  | [], [] => rfl
  | [], _ :: _ => rfl
  | _ :: _, [] => rfl
  | x :: xs, y :: ys => by
      simp only [sharedKey, public_key, List.map_cons, List.zipWith_cons_cons]
      refine congrArg₂ _ (by omega) ?_
      exact sharedKey_comm xs ys

/-- The authentication tag of the model crypto box: sixteen bytes derived
from the shared key, the nonce and the message. -/
def macBytes (k n m : List Nat) : List Nat :=
  (List.range 16).map
    (fun i => ((k ++ n ++ m).foldl (fun acc b => (acc * 131 + b + 1) % 65536) 97 + i) % 256)

/-- Interface model of `crypto::box_::seal` (src/lib.rs line 83): sixteen
tag bytes bound to the shared key, nonce and message, then the message.
The model captures authentication and length structure, not secrecy. -/
def box_seal (m n toPk fromSk : List Nat) : List Nat :=
  macBytes (sharedKey toPk fromSk) n m ++ m

/-- Interface model of `crypto::box_::open` (src/lib.rs line 156): checks
the sixteen-byte tag against the shared key recomputed from the claimed
sender's public key and the recipient's secret key. -/
def box_open (c n senderPk mySk : List Nat) : Option (List Nat) :=
  if 16 ≤ c.length ∧ c.take 16 = macBytes (sharedKey senderPk mySk) n (c.drop 16)
  then some (c.drop 16) else none

theorem box_open_box_seal (m n : List Nat) (skS skR : List Nat) :
    box_open (box_seal m n (public_key skR) skS) n (public_key skS) skR = some m := by
  have hlen : (macBytes (sharedKey (public_key skR) skS) n m).length = 16 := by
    simp [macBytes]
  simp only [box_open, box_seal]
  rw [List.take_left' hlen, List.drop_left' hlen, sharedKey_comm skR skS]
  rw [if_pos ⟨by simp [macBytes], rfl⟩]

/-- Whether a byte is a UTF-8 continuation byte. -/
def utf8Cont (b : Nat) : Bool := 0x80 ≤ b && b ≤ 0xBF

/-- Interface model of `std::str::from_utf8(..).is_ok()` (src/lib.rs
line 162): the standard UTF-8 well-formedness check over raw bytes,
rejecting overlong forms, surrogates and values above U+10FFFF. -/
def utf8Valid : List Nat → Bool
  | [] => true
  | b :: rest =>
      if b < 0x80 then utf8Valid rest
      else
        match rest with
        | [] => false
        | c1 :: rest1 =>
            if 0xC2 ≤ b && b ≤ 0xDF then utf8Cont c1 && utf8Valid rest1
            else
              match rest1 with
              | [] => false
              | c2 :: rest2 =>
                  if b = 0xE0 then (0xA0 ≤ c1 && c1 ≤ 0xBF) && utf8Cont c2 && utf8Valid rest2
                  else if (0xE1 ≤ b && b ≤ 0xEC) || b = 0xEE || b = 0xEF then
                    utf8Cont c1 && utf8Cont c2 && utf8Valid rest2
                  else if b = 0xED then (0x80 ≤ c1 && c1 ≤ 0x9F) && utf8Cont c2 && utf8Valid rest2
                  else
                    match rest2 with
                    | [] => false
                    | c3 :: rest3 =>
                        if b = 0xF0 then
                          (0x90 ≤ c1 && c1 ≤ 0xBF) && utf8Cont c2 && utf8Cont c3 && utf8Valid rest3
                        else if 0xF1 ≤ b && b ≤ 0xF3 then
                          utf8Cont c1 && utf8Cont c2 && utf8Cont c3 && utf8Valid rest3
                        else if b = 0xF4 then
                          (0x80 ≤ c1 && c1 ≤ 0x8F) && utf8Cont c2 && utf8Cont c3 && utf8Valid rest3
                        else false

/-- src/lib.rs lines 18-23: the envelope variant (`Type` in the source —
`Type` is reserved in Lean).  The file name is carried as its UTF-8 bytes. -/
inductive Typ where
  | Message : Typ
  | File : (file_name : List Nat) → Typ
deriving DecidableEq, Repr

/-- src/lib.rs lines 25-28. -/
inductive EncodeFlags where
  | None : EncodeFlags
  | Compressed : EncodeFlags
deriving DecidableEq, Repr

/-- src/lib.rs lines 30-37. -/
inductive GqgError where
  | InvalidOuterEncoding : GqgError
  | InvalidInnerEncoding : GqgError
  | InvalidFileName : GqgError
  | AuthFailure : GqgError
  | DecompressFailure : GqgError
deriving DecidableEq, Repr

/-- src/lib.rs lines 45-54.  The recovered file name is carried as its
UTF-8 bytes (the Rust code builds the `String` from exactly those bytes). -/
inductive DecodedData where
  | Message : (contents : List Nat) → DecodedData
  | File : (file_name : List Nat) → (contents : List Nat) → DecodedData
deriving DecidableEq, Repr

/-- src/lib.rs lines 39-43. -/
structure Decoded where
  sender : List Nat
  data : DecodedData
deriving DecidableEq, Repr

/-- The byte-level search for the two-character sequence `..` performed by
`file_name.find("..")` (src/lib.rs line 116); byte 46 is `.`, and for this
ASCII pattern byte-level and char-level search agree. -/
def hasDotDot : List Nat → Bool
  | 46 :: 46 :: _ => true
  | _ :: rest => hasDotDot rest
  | [] => false

/-- src/lib.rs lines 103-120, over the UTF-8 bytes of the name: byte 47 is
`/`, byte 92 is `\`. -/
def validate_file_name (file_name : List Nat) : Bool :=
  if 32 < file_name.length then false
  else if file_name.length = 0 then false
  else if file_name.contains 47 then false
  else if file_name.contains 92 then false
  else if hasDotDot file_name then false
  else true

/-- src/lib.rs lines 58-68: the part of the datastream emitted ahead of the
compression tag, or `InvalidFileName` when the File name fails validation. -/
def datastreamStart : Typ → Except GqgError (List Nat)
  | Typ.Message => Except.ok []
  | Typ.File file_name =>
      if validate_file_name file_name then Except.ok (file_name ++ [0])
      else Except.error GqgError.InvalidFileName

/-- src/lib.rs lines 85-92: the header token chosen by the variant. -/
def headerOf : Typ → List Char
  | Typ.Message => HEADER_MESSAGE
  | Typ.File _ => HEADER_FILE

/-- src/lib.rs lines 56-97.  The Rust function draws a fresh random nonce
from `gen_nonce` internally; the model takes the nonce as an explicit final
argument, everything else follows the source line by line. -/
def encode (from_ to_ : List Nat) (typ : Typ) (flags : EncodeFlags) (data nonce : List Nat) :
    Except GqgError (List Char) :=
  match datastreamStart typ with
  | Except.error e => Except.error e
  | Except.ok start =>
      let datastream := start ++ (match flags with
        | EncodeFlags.None => 0 :: data
        | EncodeFlags.Compressed => 1 :: compress data)
      let payload := public_key from_ ++ nonce ++ box_seal datastream nonce to_ from_
      Except.ok (headerOf typ ++ ':' :: base64encodeChars payload ++ FOOTER)

/-- src/lib.rs line 160: `payload.iter().position(|x| *x == 0)`. -/
def positionZero : List Nat → Option Nat
  | [] => none
  | x :: rest => if x = 0 then some 0 else (positionZero rest).map (fun i => i + 1)

/-- src/lib.rs lines 169-181: the compression-tag dispatch of decode. -/
def unpackBody : List Nat → Except GqgError (List Nat)
  | [] => Except.error GqgError.InvalidInnerEncoding
  | t :: rest =>
      if t = 0 then Except.ok rest
      else if t = 1 then
        match decompress rest with
        | some d => Except.ok d
        | none => Except.error GqgError.DecompressFailure
      else Except.error GqgError.InvalidInnerEncoding

/-- src/lib.rs lines 157-191: the part of decode past `open` — file-name
section, tag dispatch, and assembly of the result. -/
def unpackPlain (sender : List Nat) (is_file : Bool) (plain : List Nat) :
    Except GqgError Decoded :=
  if is_file then
    match positionZero plain with
    | none => Except.error GqgError.InvalidOuterEncoding
    | some separator =>
        if utf8Valid (plain.take separator) then
          match unpackBody (plain.drop (separator + 1)) with
          | Except.ok contents =>
              Except.ok ⟨sender, DecodedData.File (plain.take separator) contents⟩
          | Except.error e => Except.error e
        else Except.error GqgError.InvalidFileName
  else
    match unpackBody plain with
    | Except.ok contents => Except.ok ⟨sender, DecodedData.Message contents⟩
    | Except.error e => Except.error e

/-- src/lib.rs lines 137-191: decode after the header token has been
recognised and stripped.  `take 1 = [':']` is `starts_with(":")` and
`drop 1` is the `&payload[1..]` that follows it. -/
def decodeAfterHeader (myself : List Nat) (is_file : Bool) (payload : List Char) :
    Except GqgError Decoded :=
  if payload.getLast? = some ']' then
    if payload.dropLast.take 1 = [':'] then
      match base64decodeChars (payload.dropLast.drop 1) with
      | none => Except.error GqgError.InvalidOuterEncoding
      | some bytes =>
          if bytes.length < 32 then Except.error GqgError.InvalidOuterEncoding
          else
            if (bytes.drop 32).length < 24 then Except.error GqgError.InvalidOuterEncoding
            else
              match box_open ((bytes.drop 32).drop 24) ((bytes.drop 32).take 24)
                  (bytes.take 32) myself with
              | some plain => unpackPlain (bytes.take 32) is_file plain
              | none => Except.error GqgError.InvalidOuterEncoding
    else Except.error GqgError.InvalidOuterEncoding
  else Except.error GqgError.InvalidOuterEncoding

/-- src/lib.rs lines 122-192: the decode entry point.  Rust `String` input
is embedded as its char sequence. -/
def decode (myself : List Nat) (payload : List Char) : Except GqgError Decoded :=
  let p := remove_whitespace payload
  if p.take HEADER_MESSAGE.length = HEADER_MESSAGE then
    decodeAfterHeader myself false (p.drop HEADER_MESSAGE.length)
  else if p.take HEADER_FILE.length = HEADER_FILE then
    decodeAfterHeader myself true (p.drop HEADER_FILE.length)
  else Except.error GqgError.InvalidOuterEncoding

theorem isWS_b64Char (n : Nat) : isUnicodeWhitespace (b64Char n) = false := by
  by_cases h : n < 64
  · revert h
    revert n
    decide
  · unfold b64Char
    rw [List.getD_eq_default _ _ (by simp [b64Alphabet]; omega)]
    decide

theorem no_ws_base64 : ∀ bs : List Nat, ∀ c ∈ base64encodeChars bs, isUnicodeWhitespace c = false
  | [], _, h => by simp [base64encodeChars] at h
  | [a], c, h => by
      simp only [base64encodeChars, List.mem_cons, List.not_mem_nil, or_false] at h
      rcases h with h | h | h | h <;> subst h <;> first | apply isWS_b64Char | decide
  | [a, b], c, h => by
      simp only [base64encodeChars, List.mem_cons, List.not_mem_nil, or_false] at h
      rcases h with h | h | h | h <;> subst h <;> first | apply isWS_b64Char | decide
  | a :: b :: d :: rest, c, h => by
      simp only [base64encodeChars, List.mem_cons] at h
      rcases h with h | h | h | h | h
      · subst h; apply isWS_b64Char
      · subst h; apply isWS_b64Char
      · subst h; apply isWS_b64Char
      · subst h; apply isWS_b64Char
      · exact no_ws_base64 rest c h

theorem remove_whitespace_envelope (hd : List Char) (raw : List Nat)
    (hhd : ∀ c ∈ hd, isUnicodeWhitespace c = false) :
    remove_whitespace (hd ++ ':' :: base64encodeChars raw ++ FOOTER) =
      hd ++ ':' :: base64encodeChars raw ++ FOOTER := by
  rw [remove_whitespace, List.filter_eq_self]
  intro c hc
  rcases List.mem_append.mp hc with h1 | h5
  · rcases List.mem_append.mp h1 with h2 | h3
    · simp [hhd c h2]
    · rcases List.mem_cons.mp h3 with rfl | h4
      · decide
      · simp [no_ws_base64 raw c h4]
  · simp only [FOOTER, List.mem_singleton] at h5
    subst h5
    decide

theorem take_header_file_ne_message (r : List Char) :
    List.take HEADER_MESSAGE.length (HEADER_FILE ++ r) ≠ HEADER_MESSAGE := by
  intro h
  have h6 := congrArg (fun l => l[6]?) h
  simp only [List.getElem?_take, List.getElem?_append] at h6
  simp [HEADER_FILE, HEADER_MESSAGE] at h6

/-- Unfolding decode when the stripped input carries the Message header. -/
theorem decode_strip_message (myself : List Nat) (input rest : List Char)
    (h : remove_whitespace input = HEADER_MESSAGE ++ rest) :
    decode myself input = decodeAfterHeader myself false rest := by
  simp only [decode, h]
  rw [if_pos (List.take_left' rfl), List.drop_left' rfl]

/-- Unfolding decode when the stripped input carries the File header. -/
theorem decode_strip_file (myself : List Nat) (input rest : List Char)
    (h : remove_whitespace input = HEADER_FILE ++ rest) :
    decode myself input = decodeAfterHeader myself true rest := by
  simp only [decode, h]
  rw [if_neg (take_header_file_ne_message rest), if_pos (List.take_left' rfl),
    List.drop_left' rfl]

/-- Unfolding decodeAfterHeader on a well-framed body: a colon, valid base64
and a long-enough byte payload reach the crypto stage. -/
theorem decodeAfterHeader_wellformed (myself : List Nat) (is_file : Bool) (raw : List Nat)
    (h256 : ∀ b ∈ raw, b < 256) (h32 : ¬ raw.length < 32) (h24 : ¬ (raw.drop 32).length < 24) :
    decodeAfterHeader myself is_file (':' :: base64encodeChars raw ++ FOOTER) =
      match box_open ((raw.drop 32).drop 24) ((raw.drop 32).take 24) (raw.take 32) myself with
      | some plain => unpackPlain (raw.take 32) is_file plain
      | none => Except.error GqgError.InvalidOuterEncoding := by
  have hshape : ':' :: base64encodeChars raw ++ FOOTER =
      (':' :: base64encodeChars raw) ++ [']'] := by simp [FOOTER]
  have htake : (':' :: base64encodeChars raw).take 1 = [':'] := rfl
  have hdrop : (':' :: base64encodeChars raw).drop 1 = base64encodeChars raw := rfl
  simp only [decodeAfterHeader, hshape, List.getLast?_concat, List.dropLast_concat,
    htake, hdrop]
  simp only [if_true, base64_round_trip raw h256, if_neg h32, if_neg h24]

/-- Unfolding decode over a complete well-formed envelope. -/
theorem decode_envelope (myself : List Nat) (typ : Typ) (raw : List Nat)
    (h256 : ∀ b ∈ raw, b < 256) (h32 : ¬ raw.length < 32) (h24 : ¬ (raw.drop 32).length < 24) :
    decode myself (headerOf typ ++ ':' :: base64encodeChars raw ++ FOOTER) =
      match box_open ((raw.drop 32).drop 24) ((raw.drop 32).take 24) (raw.take 32) myself with
      | some plain =>
          unpackPlain (raw.take 32) (match typ with | Typ.Message => false | Typ.File _ => true) plain
      | none => Except.error GqgError.InvalidOuterEncoding := by
  cases typ with
  | Message =>
      have hrw := remove_whitespace_envelope HEADER_MESSAGE raw (by decide)
      rw [show headerOf Typ.Message = HEADER_MESSAGE from rfl,
        decode_strip_message myself _ ((':' :: base64encodeChars raw) ++ FOOTER)
          (by rw [hrw, List.append_assoc])]
      exact decodeAfterHeader_wellformed myself false raw h256 h32 h24
  | File name =>
      have hrw := remove_whitespace_envelope HEADER_FILE raw (by decide)
      rw [show headerOf (Typ.File name) = HEADER_FILE from rfl,
        decode_strip_file myself _ ((':' :: base64encodeChars raw) ++ FOOTER)
          (by rw [hrw, List.append_assoc])]
      exact decodeAfterHeader_wellformed myself true raw h256 h32 h24

theorem mem_public_key_lt (sk : List Nat) : ∀ b ∈ public_key sk, b < 256 := by
  intro b hb
  simp only [public_key, List.mem_map] at hb
  obtain ⟨a, _, rfl⟩ := hb
  omega

theorem mem_macBytes_lt (k n m : List Nat) : ∀ b ∈ macBytes k n m, b < 256 := by
  intro b hb
  simp only [macBytes, List.mem_map] at hb
  obtain ⟨i, _, rfl⟩ := hb
  omega

theorem mem_box_seal_lt (m n toPk fromSk : List Nat) (hm : ∀ b ∈ m, b < 256) :
    ∀ b ∈ box_seal m n toPk fromSk, b < 256 := by
  intro b hb
  rcases List.mem_append.mp hb with h | h
  · exact mem_macBytes_lt _ _ _ b h
  · exact hm b h

theorem mem_compress_lt (d : List Nat) (hd : ∀ b ∈ d, b < 256) : ∀ b ∈ compress d, b < 256 := by
  intro b hb
  rcases List.mem_append.mp hb with h | h
  · simp only [List.mem_cons, List.not_mem_nil, or_false] at h
    rcases h with h | h | h | h <;> omega
  · exact hd b h

theorem positionZero_append :
    ∀ (name rest : List Nat), 0 ∉ name → positionZero (name ++ 0 :: rest) = some name.length
  | [], rest, _ => by simp [positionZero]
  | x :: name, rest, h => by
      have hx : ¬ x = 0 := fun hx0 => h (by simp [hx0])
      have htail : 0 ∉ name := fun hm => h (by simp [hm])
      have ih := positionZero_append name rest htail
      simp [List.cons_append, positionZero, if_neg hx, ih]

/-- The file-name section of unpacking: decode finds the first NUL, checks
only UTF-8 validity on the bytes before it, and hands the remainder to the
tag dispatch. -/
theorem unpackPlain_file (sender name rest : List Nat) (h0 : 0 ∉ name) :
    unpackPlain sender true (name ++ 0 :: rest) =
      if utf8Valid name then
        match unpackBody rest with
        | Except.ok contents => Except.ok ⟨sender, DecodedData.File name contents⟩
        | Except.error e => Except.error e
      else Except.error GqgError.InvalidFileName := by
  have hdrop : (name ++ 0 :: rest).drop (name.length + 1) = rest := by
    rw [show name ++ 0 :: rest = (name ++ [0]) ++ rest by simp, List.drop_left' (by simp)]
  simp only [unpackPlain, if_true, positionZero_append name rest h0,
    List.take_left' rfl, hdrop]

/-- Decoding a well-formed envelope whose payload seals `plain` from sender
secret key `skS` to the recipient holding `myself` reaches the unpack stage
with exactly `plain`. -/
theorem decode_sealed (myself skS nonce plain : List Nat) (typ : Typ)
    (hsk : skS.length = 32) (hn : nonce.length = 24)
    (hnb : ∀ b ∈ nonce, b < 256) (hp : ∀ b ∈ plain, b < 256) :
    decode myself (headerOf typ ++ ':' :: base64encodeChars
        (public_key skS ++ nonce ++ box_seal plain nonce (public_key myself) skS) ++ FOOTER) =
      unpackPlain (public_key skS)
        (match typ with | Typ.Message => false | Typ.File _ => true) plain := by
  have hpk : (public_key skS).length = 32 := by simp [public_key, hsk]
  have h256 : ∀ b ∈ public_key skS ++ nonce ++ box_seal plain nonce (public_key myself) skS,
      b < 256 := by
    intro b hb
    rcases List.mem_append.mp hb with h | h
    · rcases List.mem_append.mp h with h | h
      · exact mem_public_key_lt skS b h
      · exact hnb b h
    · exact mem_box_seal_lt _ _ _ _ hp b h
  have hlen : (public_key skS ++ nonce ++ box_seal plain nonce (public_key myself) skS).length
      = 32 + (24 + (16 + plain.length)) := by
    simp [hpk, hn, box_seal, macBytes]
  have e1 : (public_key skS ++ nonce ++ box_seal plain nonce (public_key myself) skS).take 32
      = public_key skS := by
    rw [List.append_assoc, List.take_left' hpk]
  have e2 : (public_key skS ++ nonce ++ box_seal plain nonce (public_key myself) skS).drop 32
      = nonce ++ box_seal plain nonce (public_key myself) skS := by
    rw [List.append_assoc, List.drop_left' hpk]
  rw [decode_envelope myself typ _ h256 (by omega)
    (by rw [e2]; simp [hn, box_seal, macBytes])]
  rw [e1, e2, List.take_left' hn, List.drop_left' hn, box_open_box_seal]

instance {ε α : Type} [DecidableEq ε] [DecidableEq α] : DecidableEq (Except ε α) := fun x y =>
  match x, y with
  | Except.error a, Except.error b =>
      if h : a = b then isTrue (congrArg Except.error h)
      else isFalse (fun hc => h (by injection hc))
  | Except.ok a, Except.ok b =>
      if h : a = b then isTrue (congrArg Except.ok h)
      else isFalse (fun hc => h (by injection hc))
  | Except.error _, Except.ok _ => isFalse (fun hc => Except.noConfusion hc)
  | Except.ok _, Except.error _ => isFalse (fun hc => Except.noConfusion hc)

/-- Claim C1 (amended: the File-variant name must additionally contain no NUL
byte).  Round trip: for every sender secret key, recipient key pair, both
variants, both compression flags and every content byte sequence, decoding
an encoded envelope succeeds and returns the sender's public key, the same
variant, the same file name (if any) and exactly the original data. -/
theorem round_trip (skS skR nonce data : List Nat) (typ : Typ) (flags : EncodeFlags)
    (hsk : skS.length = 32)
    (hn : nonce.length = 24) (hnb : ∀ b ∈ nonce, b < 256)
    (hd : ∀ b ∈ data, b < 256) (hdl : data.length < 4294967296)
    (hname : ∀ name, typ = Typ.File name →
      validate_file_name name = true ∧ utf8Valid name = true ∧ 0 ∉ name ∧ ∀ b ∈ name, b < 256) :
    ∃ env, encode skS (public_key skR) typ flags data nonce = Except.ok env ∧
      decode skR env = Except.ok ⟨public_key skS,
        match typ with
        | Typ.Message => DecodedData.Message data
        | Typ.File name => DecodedData.File name data⟩ := by
  cases typ with
  | Message =>
      cases flags with
      | None =>
          refine ⟨_, rfl, ?_⟩
          have hplain : ∀ b ∈ (0 : Nat) :: data, b < 256 := by
            intro b hb
            rcases List.mem_cons.mp hb with rfl | hb
            · omega
            · exact hd b hb
          simp only [List.nil_append]
          rw [decode_sealed skR skS nonce (0 :: data) Typ.Message hsk hn hnb hplain]
          simp [unpackPlain, unpackBody]
      | Compressed =>
          refine ⟨_, rfl, ?_⟩
          have hplain : ∀ b ∈ (1 : Nat) :: compress data, b < 256 := by
            intro b hb
            rcases List.mem_cons.mp hb with rfl | hb
            · omega
            · exact mem_compress_lt data hd b hb
          simp only [List.nil_append]
          rw [decode_sealed skR skS nonce (1 :: compress data) Typ.Message hsk hn hnb hplain]
          simp [unpackPlain, unpackBody, decompress_compress data hdl]
  | File name =>
      obtain ⟨hv, hu, h0, hnb2⟩ := hname name rfl
      have hplainMem : ∀ tail : List Nat, (∀ b ∈ tail, b < 256) →
          ∀ b ∈ (name ++ [0]) ++ tail, b < 256 := by
        intro tail htail b hb
        rcases List.mem_append.mp hb with h | h
        · rcases List.mem_append.mp h with h | h
          · exact hnb2 b h
          · simp only [List.mem_singleton] at h
            omega
        · exact htail b h
      cases flags with
      | None =>
          have henc : encode skS (public_key skR) (Typ.File name) EncodeFlags.None data nonce =
              Except.ok (headerOf (Typ.File name) ++ ':' :: base64encodeChars
                (public_key skS ++ nonce ++
                  box_seal ((name ++ [0]) ++ 0 :: data) nonce (public_key skR) skS) ++
                FOOTER) := by
            simp only [encode, datastreamStart, if_pos hv]
          refine ⟨_, henc, ?_⟩
          have hplain : ∀ b ∈ (name ++ [0]) ++ 0 :: data, b < 256 := by
            refine hplainMem _ ?_
            intro b hb
            rcases List.mem_cons.mp hb with rfl | hb
            · omega
            · exact hd b hb
          rw [decode_sealed skR skS nonce _ (Typ.File name) hsk hn hnb hplain]
          rw [show (name ++ [0]) ++ 0 :: data = name ++ 0 :: 0 :: data by simp]
          rw [unpackPlain_file (public_key skS) name (0 :: data) h0]
          simp [hu, unpackBody]
      | Compressed =>
          have henc : encode skS (public_key skR) (Typ.File name) EncodeFlags.Compressed data
              nonce =
              Except.ok (headerOf (Typ.File name) ++ ':' :: base64encodeChars
                (public_key skS ++ nonce ++
                  box_seal ((name ++ [0]) ++ 1 :: compress data) nonce (public_key skR) skS) ++
                FOOTER) := by
            simp only [encode, datastreamStart, if_pos hv]
          refine ⟨_, henc, ?_⟩
          have hplain : ∀ b ∈ (name ++ [0]) ++ 1 :: compress data, b < 256 := by
            refine hplainMem _ ?_
            intro b hb
            rcases List.mem_cons.mp hb with rfl | hb
            · omega
            · exact mem_compress_lt data hd b hb
          rw [decode_sealed skR skS nonce _ (Typ.File name) hsk hn hnb hplain]
          rw [show (name ++ [0]) ++ 1 :: compress data = name ++ 0 :: 1 :: compress data by simp]
          rw [unpackPlain_file (public_key skS) name (1 :: compress data) h0]
          simp [hu, unpackBody, decompress_compress data hdl]

/-- Witness for C1 at concrete inputs: a File envelope with name "hi"
(bytes 104, 105), compressed, carrying [1, 2, 3]. -/
theorem round_trip_witness :
    ∃ env, encode (List.replicate 32 5) (public_key (List.replicate 32 9))
        (Typ.File [104, 105]) EncodeFlags.Compressed [1, 2, 3] (List.replicate 24 7) =
        Except.ok env ∧
      decode (List.replicate 32 9) env =
        Except.ok ⟨public_key (List.replicate 32 5), DecodedData.File [104, 105] [1, 2, 3]⟩ :=
  round_trip (List.replicate 32 5) (List.replicate 32 9) (List.replicate 24 7) [1, 2, 3]
    (Typ.File [104, 105]) EncodeFlags.Compressed (by decide) (by decide) (by decide)
    (by decide) (by decide)
    (fun name h => by
      cases h
      exact ⟨by decide, by decide, by decide, by decide⟩)

set_option maxRecDepth 100000 in
/-- Claim C1 fails as originally stated: the file name [97, 0, 98] (the Rust
string "a\u{0}b") satisfies every rule of validate_file_name, so encode
accepts it, yet decoding the resulting envelope fails with
InvalidInnerEncoding instead of round-tripping the name and data. -/
theorem round_trip_nul_counterexample :
    validate_file_name [97, 0, 98] = true ∧
    (match encode (List.replicate 32 5) (public_key (List.replicate 32 9))
        (Typ.File [97, 0, 98]) EncodeFlags.None [1, 2] (List.replicate 24 7) with
     | Except.ok env => decode (List.replicate 32 9) env
     | Except.error e => Except.error e) =
      Except.error GqgError.InvalidInnerEncoding :=
  ⟨by decide, by decide⟩

set_option maxRecDepth 100000 in
/-- Claim C2: at a well-framed envelope whose sealed ciphertext fails
authentication (box_open returns none on sixteen zero bytes), decode
returns InvalidOuterEncoding — not the AuthFailure the specification
names: src/lib.rs line 156 maps the open failure to InvalidOuterEncoding,
and GqgError::AuthFailure is never constructed anywhere in the crate. -/
theorem decode_auth_failure_yields_outer :
    box_open (List.replicate 16 0) (List.replicate 24 0) (List.replicate 32 0)
      (List.replicate 32 9) = none ∧
    decode (List.replicate 32 9) (HEADER_MESSAGE ++ ':' :: base64encodeChars
        (List.replicate 32 0 ++ List.replicate 24 0 ++ List.replicate 16 0) ++ FOOTER) =
      Except.error GqgError.InvalidOuterEncoding :=
  ⟨by decide, by decide⟩

/-- Claim C3 (amended): on the File path decode checks only that the
decrypted name bytes are valid UTF-8, failing InvalidFileName otherwise;
it does not re-apply the encode-time rules, so a decrypted name that is
empty, longer than 32 bytes, or contains separators or ".." is returned
unchanged to the caller. -/
theorem decode_file_name_utf8_only (skR skS nonce name rest : List Nat)
    (hsk : skS.length = 32) (hn : nonce.length = 24) (hnb : ∀ b ∈ nonce, b < 256)
    (hname : ∀ b ∈ name, b < 256) (hrest : ∀ b ∈ rest, b < 256) (h0 : 0 ∉ name) :
    decode skR (headerOf (Typ.File name) ++ ':' :: base64encodeChars
        (public_key skS ++ nonce ++
          box_seal (name ++ 0 :: rest) nonce (public_key skR) skS) ++ FOOTER) =
      if utf8Valid name then
        match unpackBody rest with
        | Except.ok contents => Except.ok ⟨public_key skS, DecodedData.File name contents⟩
        | Except.error e => Except.error e
      else Except.error GqgError.InvalidFileName := by
  have hplain : ∀ b ∈ name ++ 0 :: rest, b < 256 := by
    intro b hb
    rcases List.mem_append.mp hb with h | h
    · exact hname b h
    · rcases List.mem_cons.mp h with rfl | h
      · omega
      · exact hrest b h
  rw [decode_sealed skR skS nonce _ (Typ.File name) hsk hn hnb hplain]
  exact unpackPlain_file _ name rest h0

set_option maxRecDepth 100000 in
/-- Witness for the amended C3: a sealed name ".." (bytes 46, 46), which
fails every encode-time rule but is valid UTF-8, is returned unchanged. -/
theorem decode_file_name_utf8_only_witness :
    decode (List.replicate 32 9) (headerOf (Typ.File [46, 46]) ++ ':' :: base64encodeChars
        (public_key (List.replicate 32 5) ++ List.replicate 24 7 ++
          box_seal ([46, 46] ++ 0 :: [0, 104]) (List.replicate 24 7)
            (public_key (List.replicate 32 9)) (List.replicate 32 5)) ++ FOOTER) =
      Except.ok ⟨public_key (List.replicate 32 5), DecodedData.File [46, 46] [104]⟩ := by
  rw [decode_file_name_utf8_only (List.replicate 32 9) (List.replicate 32 5)
    (List.replicate 24 7) [46, 46] [0, 104] (by decide) (by decide) (by decide) (by decide)
    (by decide) (by decide)]
  decide

set_option maxRecDepth 100000 in
/-- Claim C3 fails as stated: an envelope whose sealed plaintext carries the
name ".." (which violates the validation rules) decodes successfully and
returns that name, instead of being rejected. -/
theorem decode_no_revalidation_counterexample :
    validate_file_name [46, 46] = false ∧
    decode (List.replicate 32 9) (HEADER_FILE ++ ':' :: base64encodeChars
        (public_key (List.replicate 32 5) ++ List.replicate 24 7 ++
          box_seal [46, 46, 0, 0] (List.replicate 24 7) (public_key (List.replicate 32 9))
            (List.replicate 32 5)) ++ FOOTER) =
      Except.ok ⟨public_key (List.replicate 32 5), DecodedData.File [46, 46] []⟩ :=
  ⟨by decide, by decide⟩

theorem validate_file_name_false_iff (name : List Nat) :
    validate_file_name name = false ↔
      (name.length = 0 ∨ 32 < name.length ∨ 47 ∈ name ∨ 92 ∈ name ∨ hasDotDot name = true) := by
  unfold validate_file_name
  split_ifs with h1 h2 h3 h4 h5 <;>
    simp_all [List.contains]

/-- Claim C4: encode fails with InvalidFileName exactly when the variant is
File and the name is empty, longer than 32 bytes, contains a path
separator (byte 47 `/` or 92 `\`), or contains the ".." byte sequence;
with the Message variant encode never returns an error at all. -/
theorem encode_invalid_file_name_iff (from_ to_ : List Nat) (flags : EncodeFlags)
    (data nonce : List Nat) :
    (∀ name, encode from_ to_ (Typ.File name) flags data nonce =
        Except.error GqgError.InvalidFileName ↔
      (name.length = 0 ∨ 32 < name.length ∨ 47 ∈ name ∨ 92 ∈ name ∨ hasDotDot name = true)) ∧
    ∀ e, encode from_ to_ Typ.Message flags data nonce ≠ Except.error e := by
  constructor
  · intro name
    rw [← validate_file_name_false_iff]
    cases hval : validate_file_name name
    · simp [encode, datastreamStart, hval]
    · simp [encode, datastreamStart, hval]
  · intro e
    simp [encode, datastreamStart]

/-- Witness for C4: the empty name is rejected with InvalidFileName, and a
Message encode returns no error. -/
theorem encode_invalid_file_name_iff_witness :
    encode [] [] (Typ.File []) EncodeFlags.None [] [] =
      Except.error GqgError.InvalidFileName ∧
    encode [] [] Typ.Message EncodeFlags.None [] [] ≠
      Except.error GqgError.InvalidFileName :=
  ⟨((encode_invalid_file_name_iff [] [] EncodeFlags.None [] []).1 []).mpr (by decide),
   (encode_invalid_file_name_iff [] [] EncodeFlags.None [] []).2 GqgError.InvalidFileName⟩

/-- Claim C10: encode with the Message variant always succeeds, and the only
error encode can ever return is InvalidFileName, only for the File
variant. -/
theorem encode_message_total (from_ to_ : List Nat) (flags : EncodeFlags)
    (data nonce : List Nat) :
    (∃ env, encode from_ to_ Typ.Message flags data nonce = Except.ok env) ∧
    (∀ typ e, encode from_ to_ typ flags data nonce = Except.error e →
      e = GqgError.InvalidFileName ∧ ∃ name, typ = Typ.File name) := by
  constructor
  · exact ⟨_, rfl⟩
  · intro typ e h
    cases typ with
    | Message => simp [encode, datastreamStart] at h
    | File name =>
        cases hval : validate_file_name name with
        | false =>
            simp only [encode, datastreamStart, hval, Bool.false_eq_true, if_false,
              Except.error.injEq] at h
            exact ⟨h.symm, name, rfl⟩
        | true => simp [encode, datastreamStart, hval] at h

/-- Witness for C10 at concrete inputs. -/
theorem encode_message_total_witness :
    (∃ env, encode [] [] Typ.Message EncodeFlags.Compressed [] [] = Except.ok env) ∧
    (GqgError.InvalidFileName = GqgError.InvalidFileName ∧
      ∃ name, (Typ.File [47] : Typ) = Typ.File name) :=
  ⟨(encode_message_total [] [] EncodeFlags.Compressed [] []).1,
   (encode_message_total [] [] EncodeFlags.Compressed [] []).2 (Typ.File [47])
     GqgError.InvalidFileName (by decide)⟩

theorem decodeAfterHeader_malformed (myself : List Nat) (is_file : Bool) (rest : List Char)
    (h : rest.getLast? ≠ some ']' ∨ rest.dropLast.head? ≠ some ':' ∨
      (∃ b64s, rest.dropLast = ':' :: b64s ∧ base64decodeChars b64s = none) ∨
      (∃ b64s bytes, rest.dropLast = ':' :: b64s ∧ base64decodeChars b64s = some bytes ∧
        bytes.length < 56)) :
    decodeAfterHeader myself is_file rest = Except.error GqgError.InvalidOuterEncoding := by
  rcases h with h | h | ⟨b64s, hdl, hb⟩ | ⟨b64s, bytes, hdl, hb, hlen⟩
  · simp only [decodeAfterHeader, if_neg h]
  · have hne : rest.dropLast.take 1 ≠ [':'] := by
      rw [List.take_one]
      intro hx
      cases hh : rest.dropLast.head? with
      | none => rw [hh] at hx; simp at hx
      | some c =>
          rw [hh] at hx
          simp only [Option.toList_some, List.cons.injEq, and_true] at hx
          exact h (by rw [hh, hx])
    simp only [decodeAfterHeader]
    by_cases hfoot : rest.getLast? = some ']'
    · rw [if_pos hfoot, if_neg hne]
    · rw [if_neg hfoot]
  · have htake : rest.dropLast.take 1 = [':'] := by rw [hdl]; rfl
    have hdrop : rest.dropLast.drop 1 = b64s := by rw [hdl]; rfl
    simp only [decodeAfterHeader, hdrop, hb]
    by_cases hfoot : rest.getLast? = some ']'
    · rw [if_pos hfoot, if_pos htake]
    · rw [if_neg hfoot]
  · have htake : rest.dropLast.take 1 = [':'] := by rw [hdl]; rfl
    have hdrop : rest.dropLast.drop 1 = b64s := by rw [hdl]; rfl
    have hlen32 : (bytes.drop 32).length = bytes.length - 32 := List.length_drop 32 bytes
    simp only [decodeAfterHeader, hdrop, hb]
    by_cases hfoot : rest.getLast? = some ']'
    · rw [if_pos hfoot, if_pos htake]
      by_cases h32 : bytes.length < 32
      · rw [if_pos h32]
      · rw [if_neg h32, if_pos (by omega)]
    · rw [if_neg hfoot]

/-- Claim C5: every malformed-outer shape — unrecognized header, missing
closing bracket, missing colon after the header, invalid base64 region, or
a decoded payload shorter than 32 + 24 bytes — makes decode fail with
InvalidOuterEncoding. -/
theorem decode_outer_malformed (myself : List Nat) :
    (∀ input, (remove_whitespace input).take HEADER_MESSAGE.length ≠ HEADER_MESSAGE →
       (remove_whitespace input).take HEADER_FILE.length ≠ HEADER_FILE →
       decode myself input = Except.error GqgError.InvalidOuterEncoding) ∧
    (∀ input rest, (remove_whitespace input = HEADER_MESSAGE ++ rest ∨
        remove_whitespace input = HEADER_FILE ++ rest) →
       (rest.getLast? ≠ some ']' ∨ rest.dropLast.head? ≠ some ':' ∨
        (∃ b64s, rest.dropLast = ':' :: b64s ∧ base64decodeChars b64s = none) ∨
        (∃ b64s bytes, rest.dropLast = ':' :: b64s ∧ base64decodeChars b64s = some bytes ∧
          bytes.length < 56)) →
       decode myself input = Except.error GqgError.InvalidOuterEncoding) := by
  constructor
  · intro input h1 h2
    simp only [decode, if_neg h1, if_neg h2]
  · intro input rest hstrip hbad
    rcases hstrip with h | h
    · rw [decode_strip_message myself input rest h]
      exact decodeAfterHeader_malformed myself false rest hbad
    · rw [decode_strip_file myself input rest h]
      exact decodeAfterHeader_malformed myself true rest hbad

/-- Witness for C5: a one-character input with no recognized header. -/
theorem decode_outer_malformed_witness :
    decode [] ['x'] = Except.error GqgError.InvalidOuterEncoding :=
  (decode_outer_malformed []).1 ['x'] (by decide) (by decide)

/-- Claim C6: the tag dispatch after any file-name section: an empty
remaining payload fails InvalidInnerEncoding; tag 0 returns the rest
unchanged; tag 1 decompresses, failing DecompressFailure on a malformed
stream; any other tag fails InvalidInnerEncoding. -/
theorem unpackBody_tag_dispatch :
    (unpackBody [] = Except.error GqgError.InvalidInnerEncoding) ∧
    (∀ rest, unpackBody (0 :: rest) = Except.ok rest) ∧
    (∀ rest d, decompress rest = some d → unpackBody (1 :: rest) = Except.ok d) ∧
    (∀ rest, decompress rest = none →
      unpackBody (1 :: rest) = Except.error GqgError.DecompressFailure) ∧
    (∀ t rest, t ≠ 0 → t ≠ 1 →
      unpackBody (t :: rest) = Except.error GqgError.InvalidInnerEncoding) := by
  refine ⟨rfl, fun rest => by simp [unpackBody], ?_, ?_, ?_⟩
  · intro rest d hd
    simp [unpackBody, hd]
  · intro rest hd
    simp [unpackBody, hd]
  · intro t rest h0 h1
    simp [unpackBody, h0, h1]

/-- Witness for C6: tag 1 over a well-formed and over a malformed stream,
and an unknown tag byte. -/
theorem unpackBody_tag_dispatch_witness :
    unpackBody [1, 0, 0, 0, 0] = Except.ok [] ∧
    unpackBody [1, 9] = Except.error GqgError.DecompressFailure ∧
    unpackBody [2] = Except.error GqgError.InvalidInnerEncoding :=
  ⟨unpackBody_tag_dispatch.2.2.1 [0, 0, 0, 0] [] (by decide),
   unpackBody_tag_dispatch.2.2.2.1 [9] (by decide),
   unpackBody_tag_dispatch.2.2.2.2 2 [] (by decide) (by decide)⟩

/-- Claim C7: whenever the plaintext packing stage succeeds, the encode
output is exactly the variant's header token, then ':', then the base64 of
sender public key || nonce || sealed ciphertext, then ']'; and every
successful encode went through a successful packing stage. -/
theorem encode_format (from_ to_ : List Nat) (typ : Typ) (flags : EncodeFlags)
    (data nonce : List Nat) :
    (∀ start, datastreamStart typ = Except.ok start →
      encode from_ to_ typ flags data nonce = Except.ok
        (headerOf typ ++ ':' :: base64encodeChars
          (public_key from_ ++ nonce ++ box_seal (start ++ (match flags with
            | EncodeFlags.None => 0 :: data
            | EncodeFlags.Compressed => 1 :: compress data)) nonce to_ from_) ++ FOOTER)) ∧
    (∀ env, encode from_ to_ typ flags data nonce = Except.ok env →
      ∃ start, datastreamStart typ = Except.ok start) := by
  constructor
  · intro start h
    simp only [encode, h]
  · intro env h
    cases hds : datastreamStart typ with
    | error e => simp [encode, hds] at h
    | ok start => exact ⟨start, rfl⟩

/-- Witness for C7 at concrete inputs: the Message variant packs to
tag 0 followed by the data. -/
theorem encode_format_witness :
    encode [1] [2] Typ.Message EncodeFlags.None [3] [4] = Except.ok
      (headerOf Typ.Message ++ ':' :: base64encodeChars
        (public_key [1] ++ [4] ++ box_seal [0, 3] [4] [2] [1]) ++ FOOTER) :=
  (encode_format [1] [2] Typ.Message EncodeFlags.None [3] [4]).1 [] rfl

/-- Claim C8: decode depends only on the whitespace-stripped input: inputs
equal modulo whitespace decode identically, and stripping whitespace from
an input never changes its decoding. -/
theorem decode_whitespace_invariant (myself : List Nat) :
    (∀ s t, remove_whitespace s = remove_whitespace t →
      decode myself s = decode myself t) ∧
    (∀ s, decode myself (remove_whitespace s) = decode myself s) := by
  have key : ∀ s t : List Char, remove_whitespace s = remove_whitespace t →
      decode myself s = decode myself t := by
    intro s t h
    simp only [decode, h]
  refine ⟨key, fun s => key _ _ ?_⟩
  simp [remove_whitespace, List.filter_filter]

/-- Witness for C8: a line-broken envelope decodes like the compact one. -/
theorem decode_whitespace_invariant_witness :
    decode [] ['[', 'G', 'Q', 'G', '1', '-', 'M', 'E', 'S', 'S', 'A', 'G', 'E', ':', ']'] =
      decode [] ['[', 'G', 'Q', 'G', '1', '-', 'M', 'E', ' ', '\n', 'S', 'S', 'A', 'G', 'E',
        ':', ' ', ']'] :=
  (decode_whitespace_invariant []).1 _ _ (by decide)

/-- Rust slice `&l[i..]`: `none` (a panic) when the index is out of range. -/
def sliceFrom {α : Type} (l : List α) (i : Nat) : Option (List α) :=
  if i ≤ l.length then some (l.drop i) else none

/-- Rust slice `&l[..i]`: `none` (a panic) when the index is out of range. -/
def sliceTo {α : Type} (l : List α) (i : Nat) : Option (List α) :=
  if i ≤ l.length then some (l.take i) else none

/-- Rust `usize` subtraction: `none` (a panic) on underflow. -/
def checkedSub (a b : Nat) : Option Nat := if b ≤ a then some (a - b) else none

/-- `PublicKey::from_slice` of sodiumoxide (src/lib.rs line 149): `some`
exactly on 32-byte slices; the source calls `.unwrap()` on the result. -/
def publicKeyFromSlice (l : List Nat) : Option (List Nat) :=
  if l.length = 32 then some l else none

/-- `Nonce::from_slice` (src/lib.rs line 154): `some` exactly on 24-byte
slices; the source calls `.unwrap()` on the result. -/
def nonceFromSlice (l : List Nat) : Option (List Nat) :=
  if l.length = 24 then some l else none

/-- src/lib.rs lines 169-181 with the `payload[0]` index and the
`&payload[1..]` slices modelled as explicitly panicking operations:
`none` is a panic, `some r` a returned result. -/
def unpackBodyChecked (payload : List Nat) : Option (Except GqgError (List Nat)) :=
  if payload.length < 1 then some (Except.error GqgError.InvalidInnerEncoding)
  else
    match payload.head? with
    | none => none
    | some t =>
        if t = 0 then
          match sliceFrom payload 1 with
          | none => none
          | some rest => some (Except.ok rest)
        else if t = 1 then
          match sliceFrom payload 1 with
          | none => none
          | some rest =>
              match decompress rest with
              | some d => some (Except.ok d)
              | none => some (Except.error GqgError.DecompressFailure)
        else some (Except.error GqgError.InvalidInnerEncoding)

/-- src/lib.rs lines 157-191 with the `&payload[..separator]` and
`&payload[separator+1..]` slices modelled as explicitly panicking. -/
def unpackPlainChecked (sender : List Nat) (is_file : Bool) (plain : List Nat) :
    Option (Except GqgError Decoded) :=
  if is_file then
    match positionZero plain with
    | none => some (Except.error GqgError.InvalidOuterEncoding)
    | some separator =>
        match sliceTo plain separator with
        | none => none
        | some nameBytes =>
            if utf8Valid nameBytes then
              match sliceFrom plain (separator + 1) with
              | none => none
              | some rest =>
                  match unpackBodyChecked rest with
                  | none => none
                  | some (Except.ok contents) =>
                      some (Except.ok ⟨sender, DecodedData.File nameBytes contents⟩)
                  | some (Except.error e) => some (Except.error e)
            else some (Except.error GqgError.InvalidFileName)
  else
    match unpackBodyChecked plain with
    | none => none
    | some (Except.ok contents) => some (Except.ok ⟨sender, DecodedData.Message contents⟩)
    | some (Except.error e) => some (Except.error e)

/-- src/lib.rs lines 137-191 with every slice, subtraction and unwrap
modelled as explicitly panicking. -/
def decodeAfterHeaderChecked (myself : List Nat) (is_file : Bool) (payload : List Char) :
    Option (Except GqgError Decoded) :=
  if payload.getLast? = some ']' then
    match checkedSub payload.length 1 with
    | none => none
    | some n1 =>
        match sliceTo payload n1 with
        | none => none
        | some p2 =>
            if p2.take 1 = [':'] then
              match sliceFrom p2 1 with
              | none => none
              | some afterColon =>
                  match base64decodeChars afterColon with
                  | none => some (Except.error GqgError.InvalidOuterEncoding)
                  | some bytes =>
                      if bytes.length < 32 then some (Except.error GqgError.InvalidOuterEncoding)
                      else
                        match sliceTo bytes 32 with
                        | none => none
                        | some pkSlice =>
                            match publicKeyFromSlice pkSlice with
                            | none => none
                            | some sender =>
                                match sliceFrom bytes 32 with
                                | none => none
                                | some rest1 =>
                                    if rest1.length < 24 then
                                      some (Except.error GqgError.InvalidOuterEncoding)
                                    else
                                      match sliceTo rest1 24 with
                                      | none => none
                                      | some nSlice =>
                                          match nonceFromSlice nSlice with
                                          | none => none
                                          | some nonce =>
                                              match sliceFrom rest1 24 with
                                              | none => none
                                              | some ct =>
                                                  match box_open ct nonce sender myself with
                                                  | some plain =>
                                                      unpackPlainChecked sender is_file plain
                                                  | none =>
                                                      some (Except.error
                                                        GqgError.InvalidOuterEncoding)
            else some (Except.error GqgError.InvalidOuterEncoding)
  else some (Except.error GqgError.InvalidOuterEncoding)

/-- src/lib.rs lines 122-192 with every panicking operation explicit:
`none` is a panic, `some r` the value decode returns. -/
def decodeChecked (myself : List Nat) (payload0 : List Char) :
    Option (Except GqgError Decoded) :=
  let p := remove_whitespace payload0
  if p.take HEADER_MESSAGE.length = HEADER_MESSAGE then
    match sliceFrom p HEADER_MESSAGE.length with
    | none => none
    | some rest => decodeAfterHeaderChecked myself false rest
  else if p.take HEADER_FILE.length = HEADER_FILE then
    match sliceFrom p HEADER_FILE.length with
    | none => none
    | some rest => decodeAfterHeaderChecked myself true rest
  else some (Except.error GqgError.InvalidOuterEncoding)

theorem positionZero_lt : ∀ (l : List Nat) (i : Nat), positionZero l = some i → i < l.length
  | [], i, h => by simp [positionZero] at h
  | x :: rest, i, h => by
      simp only [positionZero] at h
      split_ifs at h with hx
      · simp only [Option.some.injEq] at h
        subst h
        simp
      · cases hp : positionZero rest with
        | none => rw [hp] at h; simp at h
        | some j =>
            rw [hp] at h
            simp at h
            subst h
            have := positionZero_lt rest j hp
            simp only [List.length_cons]
            omega

theorem unpackBodyChecked_eq (payload : List Nat) :
    unpackBodyChecked payload = some (unpackBody payload) := by
  cases payload with
  | nil => rfl
  | cons t rest =>
      have hslice : sliceFrom (t :: rest) 1 = some rest := by
        simp [sliceFrom]
      simp only [unpackBodyChecked, unpackBody, List.length_cons, List.head?_cons, hslice]
      rw [if_neg (by omega)]
      split_ifs with h0 h1
      · rfl
      · cases decompress rest <;> rfl
      · rfl

theorem unpackPlainChecked_eq (sender : List Nat) (is_file : Bool) (plain : List Nat) :
    unpackPlainChecked sender is_file plain = some (unpackPlain sender is_file plain) := by
  cases is_file with
  | false =>
      simp only [unpackPlainChecked, unpackPlain, Bool.false_eq_true, if_false,
        unpackBodyChecked_eq]
      cases unpackBody plain <;> rfl
  | true =>
      simp only [unpackPlainChecked, unpackPlain, if_true]
      cases hp : positionZero plain with
      | none => rfl
      | some separator =>
          dsimp only
          have hlt := positionZero_lt plain separator hp
          have hsliceTo : sliceTo plain separator = some (plain.take separator) := by
            rw [sliceTo, if_pos (by omega)]
          have hsliceFrom : sliceFrom plain (separator + 1) =
              some (plain.drop (separator + 1)) := by
            rw [sliceFrom, if_pos (by omega)]
          rw [hsliceTo]
          dsimp only
          by_cases hu : utf8Valid (plain.take separator) = true
          · rw [if_pos hu, if_pos hu, hsliceFrom]
            dsimp only
            rw [unpackBodyChecked_eq]
            cases unpackBody (plain.drop (separator + 1)) <;> rfl
          · rw [if_neg hu, if_neg hu]

theorem decodeAfterHeaderChecked_eq (myself : List Nat) (is_file : Bool) (payload : List Char) :
    decodeAfterHeaderChecked myself is_file payload =
      some (decodeAfterHeader myself is_file payload) := by
  by_cases hfoot : payload.getLast? = some ']'
  case neg => simp only [decodeAfterHeaderChecked, decodeAfterHeader, if_neg hfoot]
  case pos =>
  have hlen1 : 1 ≤ payload.length := by
    cases payload with
    | nil => simp at hfoot
    | cons c cs => simp
  simp only [decodeAfterHeaderChecked, decodeAfterHeader, if_pos hfoot]
  rw [checkedSub, if_pos hlen1]
  dsimp only
  rw [sliceTo, if_pos (by omega)]
  dsimp only
  rw [← List.dropLast_eq_take]
  by_cases hcolon : payload.dropLast.take 1 = [':']
  case neg => rw [if_neg hcolon, if_neg hcolon]
  case pos =>
  rw [if_pos hcolon, if_pos hcolon]
  have hl1 : 1 ≤ payload.dropLast.length := by
    have := congrArg List.length hcolon
    rw [List.length_take] at this
    simp only [List.length_cons, List.length_nil] at this
    omega
  rw [sliceFrom, if_pos hl1]
  dsimp only
  cases hb : base64decodeChars (payload.dropLast.drop 1) with
  | none => rfl
  | some bytes =>
      dsimp only
      by_cases h32 : bytes.length < 32
      case pos => rw [if_pos h32, if_pos h32]
      case neg =>
      rw [if_neg h32, if_neg h32]
      rw [sliceTo, if_pos (by omega)]
      dsimp only
      rw [publicKeyFromSlice, if_pos (by rw [List.length_take]; omega)]
      dsimp only
      rw [sliceFrom, if_pos (by omega)]
      dsimp only
      by_cases h24 : (bytes.drop 32).length < 24
      case pos => rw [if_pos h24, if_pos h24]
      case neg =>
      rw [if_neg h24, if_neg h24]
      have hd32 : (bytes.drop 32).length = bytes.length - 32 := List.length_drop 32 bytes
      rw [sliceTo, if_pos (by omega)]
      dsimp only
      rw [nonceFromSlice, if_pos (by rw [List.length_take]; omega)]
      dsimp only
      rw [sliceFrom, if_pos (by omega)]
      dsimp only
      cases box_open ((bytes.drop 32).drop 24) ((bytes.drop 32).take 24)
          (bytes.take 32) myself with
      | none => rfl
      | some plain => exact unpackPlainChecked_eq (bytes.take 32) is_file plain

/-- Claim C9: decode is total on untrusted input and never panics: the model
with every slice index, usize subtraction and `unwrap` made explicitly
panicking (`none` = panic) returns `some` of decode's result on every
secret key and every input, so each internal panic site is unreachable and
every outcome is a `Decoded` value or one of the five error kinds. -/
theorem decode_total_no_panic (myself : List Nat) (input : List Char) :
    decodeChecked myself input = some (decode myself input) := by
  simp only [decodeChecked, decode]
  split_ifs with h1 h2
  · have hl := congrArg List.length h1
    rw [List.length_take] at hl
    simp only [HEADER_MESSAGE, List.length_cons, List.length_nil] at hl ⊢
    rw [sliceFrom, if_pos (by omega)]
    exact decodeAfterHeaderChecked_eq myself false _
  · have hl := congrArg List.length h2
    rw [List.length_take] at hl
    simp only [HEADER_FILE, List.length_cons, List.length_nil] at hl ⊢
    rw [sliceFrom, if_pos (by omega)]
    exact decodeAfterHeaderChecked_eq myself true _
  · rfl

end Gqg
